import Mathlib

/-!
# Verification of the PDF Q&A retrieval pipeline (`src/index.ts`)

Shallow embedding of the core retrieval pipeline of the server:

* JavaScript number semantics (idealized: IEEE-754 special values `NaN`,
  `±Infinity` over exact reals, ignoring rounding and negative zero) — needed
  because `cosineSimilarity` divides by a possibly-zero magnitude product and
  indexes past the end of an array (yielding `undefined`, which behaves as
  `NaN` in arithmetic).
* String processing (`replace(/\s+/g, " ").trim()` normalization) over
  `List Char`.
* The upload loop (`app.post("/upload")`): per-page normalization, dropping of
  empty pages, a sequential embedding call per non-empty page, abort of the
  whole upload on the first embedding failure, and the final `Map.set`.
* `cosineSimilarity` as written (a loop over `vecA`'s indices reading
  `vecB[i]`).
* The ranking pipeline of `app.post("/ask")`:
  `map(score) → sort((a,b) => b.score - a.score) → slice(0,3)`, with the
  ECMAScript `SortCompare` semantics (a comparator result of `NaN` is treated
  as `+0`) and a stable sort (required by ES2019; modelled as stable insertion
  sort, one valid instance of the implementation-defined behaviour for
  inconsistent comparators).
* The streaming loop of `app.post("/ask")`: the per-fragment regex
  `/Citations:\s*\[\s*([^\]]*)\s*\]/i` match, the citation-list parse
  (`split(",")`, `parseInt(_, 10)`, `filter(!isNaN)`), the `/g` strip, and the
  per-fragment event emission.
-/

open scoped List

/-! ## JavaScript number semantics -/

/-- A JavaScript number, idealized: a finite value is an exact real.
Rounding and negative zero are not modelled; `NaN` and the infinities are,
because the cosine-similarity code can produce them. -/
inductive JsNum : Type
  | fin : ℝ → JsNum
  | posInf : JsNum
  | negInf : JsNum
  | nan : JsNum

namespace JsNum

/-- JS addition (`+` on numbers). -/
noncomputable def add : JsNum → JsNum → JsNum
  | fin a, fin b => fin (a + b)
  | nan, _ => nan
  | _, nan => nan
  | posInf, negInf => nan
  | negInf, posInf => nan
  | posInf, _ => posInf
  | _, posInf => posInf
  | negInf, _ => negInf
  | _, negInf => negInf

/-- JS subtraction (`-` on numbers). -/
noncomputable def sub : JsNum → JsNum → JsNum
  | fin a, fin b => fin (a - b)
  | nan, _ => nan
  | _, nan => nan
  | posInf, posInf => nan
  | negInf, negInf => nan
  | posInf, _ => posInf
  | _, negInf => posInf
  | negInf, _ => negInf
  | _, posInf => negInf

open Classical in
/-- JS multiplication (`*` on numbers). -/
noncomputable def mul : JsNum → JsNum → JsNum
  | fin a, fin b => fin (a * b)
  | nan, _ => nan
  | _, nan => nan
  | posInf, posInf => posInf
  | posInf, negInf => negInf
  | negInf, posInf => negInf
  | negInf, negInf => posInf
  | posInf, fin b => if b = 0 then nan else if 0 < b then posInf else negInf
  | fin a, posInf => if a = 0 then nan else if 0 < a then posInf else negInf
  | negInf, fin b => if b = 0 then nan else if 0 < b then negInf else posInf
  | fin a, negInf => if a = 0 then nan else if 0 < a then negInf else posInf

open Classical in
/-- JS division (`/` on numbers).  `0/0 = NaN`, `x/0 = ±∞` for `x ≠ 0`. -/
noncomputable def div : JsNum → JsNum → JsNum
  | fin a, fin b =>
      if b = 0 then (if a = 0 then nan else if 0 < a then posInf else negInf)
      else fin (a / b)
  | nan, _ => nan
  | _, nan => nan
  | posInf, posInf => nan
  | posInf, negInf => nan
  | negInf, posInf => nan
  | negInf, negInf => nan
  | fin _, posInf => fin 0
  | fin _, negInf => fin 0
  | posInf, fin b => if 0 ≤ b then posInf else negInf
  | negInf, fin b => if 0 ≤ b then negInf else posInf

open Classical in
/-- JS `Math.sqrt`. -/
noncomputable def sqrt : JsNum → JsNum
  | fin a => if a < 0 then nan else fin (Real.sqrt a)
  | posInf => posInf
  | negInf => nan
  | nan => nan

/-- IEEE `≥` on JS numbers: any comparison involving `NaN` is false. -/
def jsGe : JsNum → JsNum → Prop
  | fin a, fin b => b ≤ a
  | _, nan => False
  | nan, _ => False
  | posInf, _ => True
  | _, posInf => False
  | _, negInf => True
  | negInf, _ => False

/-! Evaluation rules for the JS arithmetic, used to compute the model on
concrete inputs. -/

@[simp] theorem add_fin (a b : ℝ) : add (fin a) (fin b) = fin (a + b) := rfl

@[simp] theorem add_nan (x : JsNum) : add nan x = nan := by cases x <;> rfl

@[simp] theorem add_nan' (x : JsNum) : add x nan = nan := by cases x <;> rfl

@[simp] theorem sub_fin (a b : ℝ) : sub (fin a) (fin b) = fin (a - b) := rfl

@[simp] theorem sub_nan (x : JsNum) : sub nan x = nan := by cases x <;> rfl

@[simp] theorem sub_nan' (x : JsNum) : sub x nan = nan := by cases x <;> rfl

@[simp] theorem mul_fin (a b : ℝ) : mul (fin a) (fin b) = fin (a * b) := rfl

@[simp] theorem mul_nan (x : JsNum) : mul nan x = nan := by cases x <;> rfl

@[simp] theorem mul_nan' (x : JsNum) : mul x nan = nan := by cases x <;> rfl

@[simp] theorem sqrt_nan : sqrt nan = nan := rfl

@[simp] theorem sqrt_fin {a : ℝ} (h : 0 ≤ a) : sqrt (fin a) = fin (Real.sqrt a) := by
  simp [sqrt, not_lt.mpr h]

@[simp] theorem div_nan (x : JsNum) : div nan x = nan := by cases x <;> rfl

@[simp] theorem div_nan' (x : JsNum) : div x nan = nan := by cases x <;> rfl

@[simp] theorem div_fin_of_ne {b : ℝ} (a : ℝ) (h : b ≠ 0) :
    div (fin a) (fin b) = fin (a / b) := by simp [div, h]

@[simp] theorem div_zero_zero : div (fin 0) (fin 0) = nan := by simp [div]

end JsNum

/-! ## String processing

Texts are modelled as `List Char` (a JS string's code units, restricted to the
characters that actually occur here).  `isJsSpace` covers the common members of
the JS `\s` class (the remaining Unicode space code points are omitted; none of
the claims depends on them). -/

/-- The JS whitespace class `\s` (common members). -/
def isJsSpace (c : Char) : Bool :=
  c = ' ' || c = '\t' || c = '\n' || c = '\r' || c = '\x0b' || c = '\x0c' || c = ' '

/-- One pass of `replace(/\s+/g, " ")`: each maximal whitespace run becomes a
single space.  The `Bool` argument records whether we are inside a run whose
replacement space has already been emitted. -/
def collapseAux : Bool → List Char → List Char
  | _, [] => []
  | inRun, c :: rest =>
    if isJsSpace c then
      if inRun then collapseAux true rest else ' ' :: collapseAux true rest
    else c :: collapseAux false rest

/-- `s.replace(/\s+/g, " ")`. -/
def collapseWs (cs : List Char) : List Char := collapseAux false cs

/-- `s.trim()`. -/
def trimChars (cs : List Char) : List Char :=
  ((cs.dropWhile isJsSpace).reverse.dropWhile isJsSpace).reverse

/-- `s.replace(/\s+/g, " ").trim()` — the normalization applied to each page's
text both in `extractTextByPage`'s `pagerender` (line 96) and again in the
upload loop (line 142). -/
def normalizeWs (cs : List Char) : List Char := trimChars (collapseWs cs)

/-! ## Data model and upload processing -/

/-- An embedding vector (`number[]`); components are idealized JS numbers that
are finite reals (the provider returns finite floats). -/
def Vec : Type := List ℝ

/-- `interface EmbeddingEntry { text; embedding; pageNumber }` (lines 32–36). -/
structure EmbeddingEntry where
  text : List Char
  embedding : Vec
  pageNumber : Nat

/-- `extractTextByPage` (lines 68–108), modelled from the point where each
page's raw text has been assembled by the `pagerender` callback (the PDF item
joining itself is external input): each page text is whitespace-normalized
(line 96) and pushed in order, then mapped to 1-based page numbers
(line 107). -/
def extractTextByPage (rawPages : List (List Char)) : List (Nat × List Char) :=
  (rawPages.map normalizeWs).enum.map (fun p => (p.1 + 1, p.2))

/-- The embedding-service contract for one call
(`embeddingModel.embedContent`): it may reject (`Except.error`), or resolve
with or without an embedding payload (`response.embedding?.values`). -/
def EmbedFn : Type := List Char → Except Unit (Option Vec)

/-- The `/upload` page loop (lines 140–153): for each page in order, normalize
its text again (line 142), skip it if empty (line 144), otherwise call the
embedding service — aborting the whole upload if the call rejects (the loop
body is inside the handler's `try`/`catch`) — and push an `EmbeddingEntry`
whose embedding falls back to `[]` when the response has no payload
(line 150).  The second component records the texts actually sent to the
embedding service, in call order, including the final failing call. -/
def uploadLoop (embed : EmbedFn) :
    List (Nat × List Char) → Except Unit (List EmbeddingEntry) × List (List Char)
  | [] => (.ok [], [])
  | (pn, t) :: rest =>
    let pageText := normalizeWs t
    if pageText = [] then uploadLoop embed rest
    else
      match embed pageText with
      | .error u => (.error u, [pageText])
      | .ok v =>
        let r := uploadLoop embed rest
        (r.1.map (fun es => ⟨pageText, v.getD [], pn⟩ :: es), pageText :: r.2)

/-- The in-memory vector store `vectorStores` (line 39): an association list
keyed by `pdfId`; `Map.set` is modelled as a prepend, `Map.get` as the first
match. -/
def Store : Type := List (String × List EmbeddingEntry)

/-- `vectorStores.get(pdfId)`. -/
def storeGet (st : Store) (k : String) : Option (List EmbeddingEntry) :=
  (st.find? (fun p => p.1 = k)).map (fun p => p.2)

/-- `vectorStores.set(pdfId, embeddings)`. -/
def storePut (st : Store) (k : String) (v : List EmbeddingEntry) : Store :=
  (k, v) :: st

/-- The `/upload` handler (lines 117–167) from the point where per-page text
extraction has succeeded: run the page loop; on an embedding failure the
`catch` answers 500 and the store is untouched; on success the entries are
stored under the fresh `pdfId` (line 156).  Returns the store and whether the
upload succeeded. -/
def uploadHandler (embed : EmbedFn) (st : Store) (pdfId : String)
    (rawPages : List (List Char)) : Store × Bool :=
  match (uploadLoop embed (extractTextByPage rawPages)).1 with
  | .error _ => (st, false)
  | .ok es => (storePut st pdfId es, true)

/-! ## Cosine similarity (lines 52–62) -/

/-- `v[i]` in JS: the element when in bounds, otherwise `undefined`, which
behaves as `NaN` in every arithmetic operation performed on it here. -/
def jsIdx : List ℝ → Nat → JsNum
  | [], _ => .nan
  | x :: _, 0 => .fin x
  | _ :: xs, n + 1 => jsIdx xs n

/-- One iteration of the `cosineSimilarity` loop, on the accumulator
`(dot, normA, normB)`: `dot += vecA[i] * vecB[i]`, `normA += vecA[i] ** 2`,
`normB += vecB[i] ** 2`. -/
noncomputable def simStep (vecA vecB : List ℝ) (acc : JsNum × JsNum × JsNum)
    (i : Nat) : JsNum × JsNum × JsNum :=
  (JsNum.add acc.1 (JsNum.mul (jsIdx vecA i) (jsIdx vecB i)),
   JsNum.add acc.2.1 (JsNum.mul (jsIdx vecA i) (jsIdx vecA i)),
   JsNum.add acc.2.2 (JsNum.mul (jsIdx vecB i) (jsIdx vecB i)))

/-- The accumulation loop of `cosineSimilarity`: `for (let i = 0;
i < vecA.length; i++)`. -/
noncomputable def simLoop (vecA vecB : List ℝ) : JsNum × JsNum × JsNum :=
  (List.range vecA.length).foldl (simStep vecA vecB) (.fin 0, .fin 0, .fin 0)

/-- `cosineSimilarity(vecA, vecB)` (lines 52–62):
`dot / (Math.sqrt(normA) * Math.sqrt(normB))`. -/
noncomputable def cosineSimilarity (vecA vecB : List ℝ) : JsNum :=
  let s := simLoop vecA vecB
  JsNum.div s.1 (JsNum.mul (JsNum.sqrt s.2.1) (JsNum.sqrt s.2.2))

/-! ## Stable comparator sort

`Array.prototype.sort` with a comparator.  Since ES2019 the sort is required
to be stable; for a consistent comparator the stable order is unique, and for
an inconsistent one (possible here when a comparator result is `NaN`) the
order is implementation-defined.  We model it as stable insertion sort, a
valid instance of that contract (V8's small-array binary insertion sort
agrees with it on the concrete inputs used below). -/

/-- Insert `x` into `l`, moving it past exactly the elements it must follow
(`c x y = .gt`, i.e. comparator result `> 0`); on `.eq` or `.lt` it stops, so
an element never moves past one it compares equal to — stability. -/
def insertSorted (c : α → α → Ordering) (x : α) : List α → List α
  | [] => [x]
  | y :: ys => if c x y = .gt then y :: insertSorted c x ys else x :: y :: ys

/-- Stable insertion sort by a JS-style comparator. -/
def isort (c : α → α → Ordering) : List α → List α
  | [] => []
  | x :: xs => insertSorted c x (isort c xs)

open Classical in
/-- ECMAScript `SortCompare` applied to a comparator result: a `NaN` result is
treated as `+0` (equal); otherwise the sign decides. -/
noncomputable def jsSortResult : JsNum → Ordering
  | .nan => .eq
  | .posInf => .gt
  | .negInf => .lt
  | .fin d => if d < 0 then .lt else if d = 0 then .eq else .gt

/-! ## The ranking pipeline of `/ask` (lines 184–190) -/

/-- `{ ...e, score }` produced by the `map` on line 185. -/
structure RankedChunk where
  text : List Char
  embedding : Vec
  pageNumber : Nat
  score : JsNum

/-- Line 185–188: score every stored chunk against the query embedding
(`cosineSimilarity(queryEmbedding, e.embedding)`). -/
noncomputable def scoreChunks (queryEmbedding : Vec) (es : List EmbeddingEntry) :
    List RankedChunk :=
  es.map (fun e =>
    ⟨e.text, e.embedding, e.pageNumber, cosineSimilarity queryEmbedding e.embedding⟩)

/-- The comparator `(a, b) => b.score - a.score` (line 189), run through
`SortCompare`. -/
noncomputable def rankCmp (a b : RankedChunk) : Ordering :=
  jsSortResult (JsNum.sub b.score a.score)

/-- Line 189: `.sort((a, b) => b.score - a.score)`. -/
noncomputable def sortedChunks (queryEmbedding : Vec) (es : List EmbeddingEntry) :
    List RankedChunk :=
  isort rankCmp (scoreChunks queryEmbedding es)

/-- Lines 184–190: `.map(score).sort(...).slice(0, 3)`. -/
noncomputable def rank (queryEmbedding : Vec) (es : List EmbeddingEntry) :
    List RankedChunk :=
  (sortedChunks queryEmbedding es).take 3

/-- The sort of line 189 rerun on index-tagged chunks (the comparator reads
only the chunk, as in the source).  Used to speak about insertion positions:
`sortedChunks` is its projection (proved below), so a statement about the tags
is a statement about where each original chunk ends up. -/
noncomputable def sortedChunksIdx (queryEmbedding : Vec) (es : List EmbeddingEntry) :
    List (Nat × RankedChunk) :=
  isort (fun p q => rankCmp p.2 q.2) (scoreChunks queryEmbedding es).enum

/-! ## The streaming citation scan of `/ask` (lines 221–244)

The regex `/Citations:\s*\[\s*([^\]]*)\s*\]/i` is implemented directly: at a
given position it requires the ten characters `Citations:` (ASCII
case-insensitively), then a maximal whitespace run, then `[`, then the capture
group — everything up to the next `]`, with its leading whitespace consumed by
the greedy `\s*` — then `]`.  The regex engine's greedy matching is
deterministic here because `[` cannot be whitespace and `[^\]]*` absorbs any
backtracking the trailing `\s*` could require. -/

/-- ASCII lower-casing, enough for the `/i` flag on this pattern. -/
def asciiLower (c : Char) : Char :=
  if 'A' ≤ c && c ≤ 'Z' then Char.ofNat (c.toNat + 32) else c

/-- Try to match `Citations:\s*\[\s*([^\]]*)\s*\]` (case-insensitively)
starting exactly at the head of `cs`; on success return the capture group and
the remainder of the input after the match. -/
def matchCitationsAt (cs : List Char) : Option (List Char × List Char) :=
  if (cs.take 10).map asciiLower = "citations:".data then
    match (cs.drop 10).dropWhile isJsSpace with
    | '[' :: r =>
      match r.dropWhile (fun c => !(c = ']')) with
      | ']' :: rest =>
        some ((r.takeWhile (fun c => !(c = ']'))).dropWhile isJsSpace, rest)
      | _ => none
    | _ => none
  else none

/-- `text.match(/Citations:\s*\[\s*([^\]]*)\s*\]/i)`: capture group of the
first match, scanning left to right. -/
def findCitationMatch : List Char → Option (List Char)
  | [] => none
  | c :: rest =>
    match matchCitationsAt (c :: rest) with
    | some (g, _) => some g
    | none => findCitationMatch rest

/-- `text.replace(/Citations:\s*\[\s*([^\]]*)\s*\]/gi, "")`, with fuel (a
successful match consumes at least twelve characters, so `cs.length` steps
always suffice). -/
def stripCitationsAux : Nat → List Char → List Char
  | 0, l => l
  | _ + 1, [] => []
  | fuel + 1, c :: rest =>
    match matchCitationsAt (c :: rest) with
    | some (_, after) => stripCitationsAux fuel after
    | none => c :: stripCitationsAux fuel rest

/-- Line 236: remove every match of the citation pattern from a fragment. -/
def stripCitations (cs : List Char) : List Char :=
  stripCitationsAux cs.length cs

/-- `"a,b".split(",")` on character lists (`"".split(",") = [""]`). -/
def splitComma : List Char → List (List Char)
  | [] => [[]]
  | c :: rest =>
    match splitComma rest with
    | p :: ps => if c = ',' then [] :: p :: ps else (c :: p) :: ps
    | [] => [[c]]

/-- `parseInt(s, 10)`: skip leading whitespace, optional sign, then a decimal
digit prefix; `none` is `NaN` (no digits). -/
def jsParseInt (cs : List Char) : Option Int :=
  let cs := cs.dropWhile isJsSpace
  let signed : Bool × List Char :=
    match cs with
    | '-' :: r => (true, r)
    | '+' :: r => (false, r)
    | r => (false, r)
  let digs := signed.2.takeWhile Char.isDigit
  if digs = [] then none
  else
    let v : Int := digs.foldl (fun n c => n * 10 + (c.toNat - '0'.toNat)) 0
    some (if signed.1 then -v else v)

/-- Lines 229–232: `citationMatch[1].split(",").map(n => parseInt(n.trim(),
10)).filter(n => !isNaN(n))`. -/
def parseCitationList (g : List Char) : List Int :=
  (splitComma g).filterMap (fun p => jsParseInt (trimChars p))

/-- One server-sent event written on line 238: the cleaned text delta and the
best-known citation list. -/
structure StreamEvent where
  text : List Char
  citations : List Int
deriving DecidableEq

/-- The `for await` loop over the generation stream (lines 223–244): per
fragment, re-parse `citations` if the full pattern occurs in *this* fragment
(lines 227–233), strip all pattern occurrences from the fragment (line 236),
and emit the event (lines 238–243).  The `citations` accumulator persists
across fragments. -/
def streamLoop : List (List Char) → List Int → List StreamEvent
  | [], _ => []
  | t :: rest, citations =>
    let citations' :=
      match findCitationMatch t with
      | some g => parseCitationList g
      | none => citations
    ⟨stripCitations t, citations'⟩ :: streamLoop rest citations'

/-! ## The `/ask` handler (lines 172–250) -/

/-- `queryEmbeddingResp.embedding?.values || []` (line 182). -/
def askQueryVec (payload : Option Vec) : Vec := payload.getD []

/-- Outcome of an `/ask` request. -/
inductive AskResult : Type
  | notFound : AskResult
  | queryFailed : AskResult
  | events : List StreamEvent → AskResult

/-- The `/ask` handler: look up the store (404 before any provider call,
lines 175–179), then embed the question (line 181, fallback to `[]` on a
payload-less response), rank (lines 184–190), then stream the generation
service's fragments through the citation scan.  Both providers are
parameters: `embed` as in the upload model, and the generation stream as an
`Except` of its fragment list (a rejection of `generateContentStream` itself
lands in the `catch`, line 248). -/
noncomputable def askHandler (embed : EmbedFn)
    (gen : Except Unit (List (List Char))) (st : Store)
    (pdfId : String) (question : List Char) : AskResult :=
  match storeGet st pdfId with
  | none => .notFound
  | some es =>
    match embed question with
    | .error _ => .queryFailed
    | .ok payload =>
      let queryEmbedding := askQueryVec payload
      let _ranked := rank queryEmbedding es
      match gen with
      | .error _ => .queryFailed
      | .ok frags => .events (streamLoop frags [])

/-! ## Helper lemmas about the stable sort -/

theorem insertSorted_length (c : α → α → Ordering) (x : α) (l : List α) :
    (insertSorted c x l).length = l.length + 1 := by
  induction l with
  | nil => rfl
  | cons y ys ih =>
    simp only [insertSorted]
    split <;> simp [ih]

theorem isort_length (c : α → α → Ordering) (l : List α) :
    (isort c l).length = l.length := by
  induction l with
  | nil => rfl
  | cons x xs ih => simp [isort, insertSorted_length, ih]

theorem insertSorted_perm (c : α → α → Ordering) (x : α) (l : List α) :
    insertSorted c x l ~ x :: l := by
  induction l with
  | nil => rfl
  | cons y ys ih =>
    simp only [insertSorted]
    split
    · exact (ih.cons y).trans (List.Perm.swap x y ys)
    · rfl

theorem isort_perm (c : α → α → Ordering) (l : List α) : isort c l ~ l := by
  induction l with
  | nil => rfl
  | cons x xs ih => exact (insertSorted_perm c x (isort c xs)).trans (ih.cons x)

theorem sublist_insertSorted (c : α → α → Ordering) (x : α) (l : List α) :
    l <+ insertSorted c x l := by
  induction l with
  | nil => simp [insertSorted]
  | cons y ys ih =>
    simp only [insertSorted]
    split
    · exact ih.cons₂ y
    · exact (List.sublist_cons_self x (y :: ys))

theorem pair_sublist_insertSorted (c : α → α → Ordering) {x b : α} {l : List α}
    (hb : b ∈ l) (hxb : c x b ≠ .gt) : [x, b] <+ insertSorted c x l := by
  induction l with
  | nil => cases hb
  | cons y ys ih =>
    simp only [insertSorted]
    split
    · rcases List.mem_cons.mp hb with rfl | hb'
      · exact absurd ‹c x b = .gt› hxb
      · exact (ih hb').cons y
    · rcases List.mem_cons.mp hb with rfl | hb'
      · exact (List.nil_sublist ys).cons₂ b |>.cons₂ x
      · exact ((List.singleton_sublist.mpr hb').cons y).cons₂ x

/-- Stability of the insertion sort: an element `a` originally before `b`
stays before `b` unless the comparator orders `a` strictly after `b`. -/
theorem isort_stable (c : α → α → Ordering) {a b : α} {l : List α}
    (h : [a, b] <+ l) (hab : c a b ≠ .gt) : [a, b] <+ isort c l := by
  induction l with
  | nil => cases h
  | cons x xs ih =>
    rw [isort]
    rcases List.sublist_cons_iff.mp h with h' | ⟨r, heq, hr⟩
    · exact (ih h').trans (sublist_insertSorted c x (isort c xs))
    · -- a = x and [b] <+ xs
      obtain ⟨rfl, rfl⟩ : a = x ∧ r = [b] := by
        injection heq with h1 h2
        simp_all
      have hb : b ∈ isort c xs :=
        ((isort_perm c xs).mem_iff).mpr (List.singleton_sublist.mp hr)
      exact pair_sublist_insertSorted c hb hab

theorem insertSorted_chain (c : α → α → Ordering) (x : α) {l : List α}
    (hl : List.Chain' (fun a b => c a b ≠ .gt) l)
    (hx : ∀ y ∈ l, c x y = .gt → c y x ≠ .gt) :
    List.Chain' (fun a b => c a b ≠ .gt) (insertSorted c x l) := by
  induction l with
  | nil => simp [insertSorted]
  | cons y ys ih =>
    simp only [insertSorted]
    split
    · have hyx : c y x ≠ .gt := hx y (List.mem_cons_self y ys) ‹c x y = .gt›
      have hys : List.Chain' (fun a b => c a b ≠ .gt) ys := hl.tail
      have ihy := ih hys (fun z hz => hx z (List.mem_cons_of_mem y hz))
      -- rebuild the chain `y :: insertSorted c x ys`
      cases hys' : insertSorted c x ys with
      | nil => simp
      | cons z zs =>
        rw [hys'] at ihy
        refine List.Chain'.cons ?_ ihy
        -- the head of `insertSorted c x ys` is either `x` or the head of `ys`
        cases ys with
        | nil => simp [insertSorted] at hys'; simp [hys'.1 ▸ hyx]
        | cons w ws =>
          simp only [insertSorted] at hys'
          split at hys'
          · -- head is `w`, and `c y w ≠ .gt` from the chain on `y :: w :: ws`
            cases hys'
            exact List.chain'_cons.mp hl |>.1
          · cases hys'
            exact hyx
    · exact List.Chain'.cons ‹¬c x y = .gt› hl

theorem isort_chain (c : α → α → Ordering) {l : List α}
    (hc : ∀ a ∈ l, ∀ b ∈ l, c a b = .gt → c b a ≠ .gt) :
    List.Chain' (fun a b => c a b ≠ .gt) (isort c l) := by
  induction l with
  | nil => simp [isort]
  | cons x xs ih =>
    rw [isort]
    refine insertSorted_chain c x
      (ih (fun a ha b hb => hc a (List.mem_cons_of_mem x ha) b (List.mem_cons_of_mem x hb)))
      (fun y hy => ?_)
    have hy' : y ∈ xs := ((isort_perm c xs).mem_iff).mp hy
    exact hc x (List.mem_cons_self x xs) y (List.mem_cons_of_mem x hy')

theorem chain'_of_chain'_mem {R S : α → α → Prop} {l : List α}
    (h : List.Chain' R l) (himp : ∀ a ∈ l, ∀ b ∈ l, R a b → S a b) :
    List.Chain' S l := by
  induction l with
  | nil => simp
  | cons x xs ih =>
    cases xs with
    | nil => simp
    | cons y ys =>
      rcases List.chain'_cons.mp h with ⟨hxy, hys⟩
      refine List.chain'_cons.mpr ⟨himp x (by simp) y (by simp) hxy, ?_⟩
      exact ih hys (fun a ha b hb => himp a (List.mem_cons_of_mem x ha) b (List.mem_cons_of_mem x hb))

theorem insertSorted_map {β : Type} (c : α → α → Ordering) (c' : β → β → Ordering)
    (f : β → α) (hf : ∀ p q, c' p q = c (f p) (f q)) (x : β) (l : List β) :
    (insertSorted c' x l).map f = insertSorted c (f x) (l.map f) := by
  induction l with
  | nil => rfl
  | cons y ys ih =>
    simp only [insertSorted, List.map_cons, hf]
    split <;> simp [ih]

theorem isort_map {β : Type} (c : α → α → Ordering) (c' : β → β → Ordering)
    (f : β → α) (hf : ∀ p q, c' p q = c (f p) (f q)) (l : List β) :
    (isort c' l).map f = isort c (l.map f) := by
  induction l with
  | nil => rfl
  | cons x xs ih => simp [isort, insertSorted_map c c' f hf, ih]

/-! ## Evaluation lemmas for the scoring model -/

/-- Once the `dot` and `normB` accumulators are `NaN`, they stay `NaN`. -/
theorem foldl_simStep_nan (vecA vecB : List ℝ) (l : List Nat) :
    ∀ acc : JsNum × JsNum × JsNum, acc.1 = .nan → acc.2.2 = .nan →
      (l.foldl (simStep vecA vecB) acc).1 = .nan ∧
      (l.foldl (simStep vecA vecB) acc).2.2 = .nan := by
  induction l with
  | nil => exact fun acc h1 h2 => ⟨h1, h2⟩
  | cons i l' ih =>
    intro acc h1 h2
    rw [List.foldl_cons]
    exact ih _ (by simp [simStep, h1]) (by simp [simStep, h2])

/-- Scoring any query against the empty stored embedding `[]` yields `NaN`:
with an empty query the loop never runs and the result is `0/0`; with a
non-empty query the first iteration reads `vecB[0] = undefined`, poisoning
`dot` and `normB` with `NaN`. -/
theorem cosineSimilarity_nil_right (q : List ℝ) : cosineSimilarity q [] = .nan := by
  cases q with
  | nil => norm_num [cosineSimilarity, simLoop, simStep, List.range_succ, jsIdx]
  | cons a rest =>
    have hrange : List.range (a :: rest : List ℝ).length =
        0 :: (List.range rest.length).map Nat.succ := by
      simp [List.range_succ_eq_map]
    rw [cosineSimilarity, simLoop, hrange, List.foldl_cons]
    have hstep : (simStep (a :: rest) [] (.fin 0, .fin 0, .fin 0) 0).1 = .nan ∧
        (simStep (a :: rest) [] (.fin 0, .fin 0, .fin 0) 0).2.2 = .nan := by
      constructor <;> simp [simStep, jsIdx]
    have h := foldl_simStep_nan (a :: rest) [] ((List.range rest.length).map Nat.succ)
      _ hstep.1 hstep.2
    simp [h.1]

/-- Concrete score: identical unit vectors score `1`. -/
theorem cosineSimilarity_e1_e1 : cosineSimilarity [1, 0] [1, 0] = .fin 1 := by
  norm_num [cosineSimilarity, simLoop, simStep, List.range_succ, jsIdx]

/-- Concrete score: orthogonal unit vectors score `0`. -/
theorem cosineSimilarity_e1_e2 : cosineSimilarity [1, 0] [0, 1] = .fin 0 := by
  norm_num [cosineSimilarity, simLoop, simStep, List.range_succ, jsIdx]

/-- Concrete score: the all-zero stored vector scores `NaN` (`0 / 0`) against
the unit query, not `0`. -/
theorem cosineSimilarity_e1_zero : cosineSimilarity [1, 0] [0, 0] = .nan := by
  norm_num [cosineSimilarity, simLoop, simStep, List.range_succ, jsIdx]

/-! ## Lemmas about the ranking pipeline -/

theorem pair_getElem_sublist (l : List α) {i j : Nat} (hi : i < l.length)
    (hj : j < l.length) (hij : i < j) : [l[i], l[j]] <+ l := by
  induction l generalizing i j with
  | nil => cases hj
  | cons x xs ih =>
    cases i with
    | zero =>
      cases j with
      | zero => cases hij
      | succ k =>
        have hk : k < xs.length := Nat.lt_of_succ_lt_succ hj
        simp only [List.getElem_cons_zero, List.getElem_cons_succ]
        exact List.Sublist.cons₂ x (List.singleton_sublist.mpr (xs.getElem_mem hk))
    | succ m =>
      cases j with
      | zero => cases hij
      | succ k =>
        have hm : m < xs.length := Nat.lt_of_succ_lt_succ hi
        have hk : k < xs.length := Nat.lt_of_succ_lt_succ hj
        simpa using (ih hm hk (Nat.lt_of_succ_lt_succ hij)).cons x

theorem jsSortResult_fin_zero : jsSortResult (.fin 0) = .eq := by
  norm_num [jsSortResult]

theorem jsSortResult_sub_self (x : JsNum) : jsSortResult (JsNum.sub x x) = .eq := by
  cases x with
  | fin a => rw [JsNum.sub_fin, sub_self, jsSortResult_fin_zero]
  | posInf => rfl
  | negInf => rfl
  | nan => rfl

/-- A comparator result of exactly-equal scores is `+0`, whatever the scores
are (`NaN - NaN` is `NaN`, which `SortCompare` also treats as `+0`). -/
theorem rankCmp_eq_of_score_eq {a b : RankedChunk} (h : a.score = b.score) :
    rankCmp a b = .eq := by
  rw [rankCmp, h, jsSortResult_sub_self]

theorem jsSortResult_fin_gt_iff (d : ℝ) : jsSortResult (.fin d) = .gt ↔ 0 < d := by
  show (if d < 0 then Ordering.lt else if d = 0 then Ordering.eq else Ordering.gt) = .gt ↔ 0 < d
  rcases lt_trichotomy d 0 with h | rfl | h
  · rw [if_pos h]
    simp [asymm h]
  · rw [if_neg (lt_irrefl 0), if_pos rfl]
    simp
  · rw [if_neg (not_lt.mpr h.le), if_neg (ne_of_gt h)]
    simp [h]

/-- On finite scores the comparator is consistent: it cannot put each of two
chunks strictly after the other. -/
theorem rankCmp_asymm_of_fin {a b : RankedChunk} {x y : ℝ}
    (ha : a.score = .fin x) (hb : b.score = .fin y)
    (h : rankCmp a b = .gt) : rankCmp b a ≠ .gt := by
  rw [rankCmp, ha, hb, JsNum.sub_fin, jsSortResult_fin_gt_iff] at h
  rw [rankCmp, ha, hb, JsNum.sub_fin, ne_eq, jsSortResult_fin_gt_iff]
  intro hcon
  linarith

/-- The sort of line 189 is the projection of its index-tagged rerun. -/
theorem sortedChunks_eq_map_idx (q : Vec) (es : List EmbeddingEntry) :
    sortedChunks q es = (sortedChunksIdx q es).map Prod.snd := by
  rw [sortedChunksIdx,
    isort_map rankCmp (fun p q => rankCmp p.2 q.2) Prod.snd (fun _ _ => rfl),
    List.enum_map_snd, sortedChunks]

theorem scoreChunks_length (q : Vec) (es : List EmbeddingEntry) :
    (scoreChunks q es).length = es.length := by
  simp [scoreChunks]

theorem mem_sortedChunks_iff {q : Vec} {es : List EmbeddingEntry} {a : RankedChunk} :
    a ∈ sortedChunks q es ↔ a ∈ scoreChunks q es :=
  (isort_perm rankCmp (scoreChunks q es)).mem_iff

/-- Under the hypothesis that every computed score is finite (no `NaN` from
degenerate or length-mismatched embeddings), the sorted list is descending
under the IEEE `≥` on scores. -/
theorem sortedChunks_descending {q : Vec} {es : List EmbeddingEntry}
    (hfin : ∀ r ∈ scoreChunks q es, ∃ x, r.score = JsNum.fin x) :
    List.Chain' (fun a b => JsNum.jsGe a.score b.score) (sortedChunks q es) := by
  have hchain : List.Chain' (fun a b => rankCmp a b ≠ .gt) (sortedChunks q es) :=
    isort_chain rankCmp (fun a ha b hb hab => by
      obtain ⟨x, hx⟩ := hfin a ha
      obtain ⟨y, hy⟩ := hfin b hb
      exact rankCmp_asymm_of_fin hx hy hab)
  refine chain'_of_chain'_mem hchain (fun a ha b hb hab => ?_)
  obtain ⟨x, hx⟩ := hfin a (mem_sortedChunks_iff.mp ha)
  obtain ⟨y, hy⟩ := hfin b (mem_sortedChunks_iff.mp hb)
  rw [rankCmp, hx, hy, JsNum.sub_fin, ne_eq, jsSortResult_fin_gt_iff] at hab
  rw [hx, hy]
  show y ≤ x
  linarith [not_lt.mp hab]

/-! ## Lemmas about upload processing -/

/-- Structure of a successful upload: exactly one `EmbeddingEntry` per page
with non-empty normalized text, carrying the **whole** normalized page text
and that page's number — there is no secondary chunking of any kind. -/
theorem uploadLoop_ok_entries (embed : EmbedFn) :
    ∀ (pages : List (Nat × List Char)) (es : List EmbeddingEntry),
      (uploadLoop embed pages).1 = .ok es →
      es.map (fun e => (e.text, e.pageNumber)) =
        (pages.filter (fun p => !(normalizeWs p.2 = []))).map
          (fun p => (normalizeWs p.2, p.1)) := by
  intro pages
  induction pages with
  | nil =>
    intro es h
    simp only [uploadLoop] at h
    cases h
    simp
  | cons p rest ih =>
    intro es h
    obtain ⟨pn, t⟩ := p
    simp only [uploadLoop] at h
    by_cases hempty : normalizeWs t = []
    · rw [if_pos hempty] at h
      simpa [List.filter_cons, hempty] using ih es h
    · rw [if_neg hempty] at h
      cases hembed : embed (normalizeWs t) with
      | error u => rw [hembed] at h; cases h
      | ok v =>
        rw [hembed] at h
        cases hrest : (uploadLoop embed rest).1 with
        | error u => rw [hrest] at h; cases h
        | ok es' =>
          rw [hrest] at h
          cases h
          simp only [List.map_cons, List.filter_cons, hempty]
          simp [ih es' hrest, hempty]

/-- Every text sent to the embedding service, and every stored text, is
non-empty: empty normalized pages are skipped before the service call. -/
theorem uploadLoop_nonempty (embed : EmbedFn) :
    ∀ pages : List (Nat × List Char),
      (∀ t ∈ (uploadLoop embed pages).2, t ≠ []) ∧
      (∀ es, (uploadLoop embed pages).1 = .ok es → ∀ e ∈ es, e.text ≠ []) := by
  intro pages
  induction pages with
  | nil =>
    refine ⟨by simp [uploadLoop], fun es h e he => ?_⟩
    simp only [uploadLoop] at h
    cases h
    cases he
  | cons p rest ih =>
    obtain ⟨pn, t⟩ := p
    by_cases hempty : normalizeWs t = []
    · constructor
      · intro u hu
        simp only [uploadLoop, if_pos hempty] at hu
        exact ih.1 u hu
      · intro es h e he
        simp only [uploadLoop, if_pos hempty] at h
        exact ih.2 es h e he
    · cases hembed : embed (normalizeWs t) with
      | error u =>
        constructor
        · intro s hs
          simp only [uploadLoop, if_neg hempty, hembed, List.mem_singleton] at hs
          subst hs
          exact hempty
        · intro es h
          simp only [uploadLoop, if_neg hempty, hembed] at h
          cases h
      | ok v =>
        constructor
        · intro s hs
          simp only [uploadLoop, if_neg hempty, hembed] at hs
          rcases List.mem_cons.mp hs with rfl | h'
          · exact hempty
          · exact ih.1 s h'
        · intro es h e he
          simp only [uploadLoop, if_neg hempty, hembed] at h
          cases hrest : (uploadLoop embed rest).1 with
          | error u => rw [hrest] at h; cases h
          | ok es' =>
            rw [hrest] at h
            cases h
            rcases List.mem_cons.mp he with rfl | h'
            · exact hempty
            · exact ih.2 es' hrest e h'

/-- A failed upload leaves the store exactly as it was. -/
theorem uploadHandler_error (embed : EmbedFn) (st : Store) (pdfId : String)
    (raw : List (List Char)) (u : Unit)
    (h : (uploadLoop embed (extractTextByPage raw)).1 = .error u) :
    uploadHandler embed st pdfId raw = (st, false) := by
  simp [uploadHandler, h]

/-! ## Remaining helpers -/

theorem jsSortResult_nan : jsSortResult .nan = .eq := rfl

/-- `haystack.includes(needle)` on character lists: some suffix of the
haystack starts with the pattern. -/
def hasSub (pat : List Char) : List Char → Bool
  | [] => pat.isPrefixOf []
  | c :: rest => pat.isPrefixOf (c :: rest) || hasSub pat rest

/-- Positive control for the streaming model: a fragment that contains the
whole marker is parsed and stripped, exactly as the regex does. -/
theorem streamLoop_whole_marker_detected :
    streamLoop ["The answer is 42. Citations: [1, 2]".data] [] =
      [⟨"The answer is 42. ".data, [1, 2]⟩] := by
  decide

/-- Positive control: case-insensitivity, interior whitespace, unparseable and
negative entries, and the `/g` strip of the marker mid-fragment. -/
theorem streamLoop_marker_parse_details :
    streamLoop ["Answer. CITATIONS:  [ 1 , x, -3, 12 ] tail".data] [] =
      [⟨"Answer.  tail".data, [1, -3, 12]⟩] := by
  decide

/-! ## Claims -/

/-- C1: for the fragment sequence `["The answer is 42. Citat", "ions: [1, 2]"]`
the code does **not** end with citation set `{1, 2}` and does **not** strip the
marker: the per-fragment regex scan (lines 227–236) never re-checks buffered
tail text, so a marker split across the fragment boundary is missed — every
emitted event carries the empty citation list and the concatenation of the
emitted text deltas still contains the literal substring `Citations:`.  This
refutes the claim's required behaviour and exhibits exactly the defect the
specification calls out. -/
theorem c1_split_marker_missed :
    streamLoop ["The answer is 42. Citat".data, "ions: [1, 2]".data] [] =
      [⟨"The answer is 42. Citat".data, []⟩, ⟨"ions: [1, 2]".data, []⟩] ∧
    hasSub "Citations:".data
      (((streamLoop ["The answer is 42. Citat".data, "ions: [1, 2]".data] []).map
        (fun e => e.text)).flatten) = true := by
  constructor
  · decide
  · decide

/-- C2: a chunk whose stored embedding has zero magnitude does **not** score
`0`: `cosineSimilarity` (lines 52–62) computes `0 / (√1 · √0) = 0 / 0`, which
is `NaN`, for the all-zero stored vector against the unit query `[1, 0]`.
This refutes the claimed similarity-0 policy at that input. -/
theorem c2_zero_magnitude_scores_nan :
    cosineSimilarity [1, 0] [0, 0] = .nan :=
  cosineSimilarity_e1_zero

set_option maxRecDepth 40000 in
/-- C3 (counterexample): a single page of 599 characters (thirty
sentences, far above the 500-character budget the claim describes) is
stored as **one** chunk of length 599 — no sub-chunk of length ≤ 500 is ever
produced, refuting the claimed secondary chunking. -/
theorem c3_counterexample :
    (((uploadLoop (fun _ => .ok (some []))
        (extractTextByPage [(List.replicate 30 "This is a sentence. ".data).flatten])).1).map
      (fun es => es.map (fun e => (e.text.length, e.pageNumber)))).toOption =
      some [(599, 1)] ∧ 500 < 599 := by
  constructor
  · decide
  · norm_num

/-- C3 (amended): the upload loop performs **no** secondary chunking at all:
a successful upload stores exactly one chunk per non-empty normalized page,
whose text is the whole normalized page text (of whatever length), with that
page's number. -/
theorem c3_no_secondary_chunking (embed : EmbedFn) (pages : List (Nat × List Char))
    (es : List EmbeddingEntry) (h : (uploadLoop embed pages).1 = .ok es) :
    es.map (fun e => (e.text, e.pageNumber)) =
      (pages.filter (fun p => !(normalizeWs p.2 = []))).map
        (fun p => (normalizeWs p.2, p.1)) :=
  uploadLoop_ok_entries embed pages es h

/-- Witness for C3 (amended) at a concrete input. -/
theorem c3_no_secondary_chunking_witness :
    ([⟨"Hi there.".data, ([] : Vec), 1⟩] : List EmbeddingEntry).map
        (fun e => (e.text, e.pageNumber)) =
      (([(1, "Hi there.".data)] : List (Nat × List Char)).filter
          (fun p => !(normalizeWs p.2 = []))).map (fun p => (normalizeWs p.2, p.1)) :=
  c3_no_secondary_chunking (fun _ => .ok (some [])) [(1, "Hi there.".data)]
    [⟨"Hi there.".data, [], 1⟩] rfl

/-- C4: if any embedding call rejects during upload processing, the whole
upload fails (the handler's `catch` answers 500) and the vector store is left
exactly as it was — in particular no entry for any document id changes, so no
partially embedded index is ever observable. -/
theorem c4_upload_failure_atomic (embed : EmbedFn) (st : Store) (pdfId : String)
    (raw : List (List Char)) (u : Unit)
    (h : (uploadLoop embed (extractTextByPage raw)).1 = .error u) :
    uploadHandler embed st pdfId raw = (st, false) ∧
    ∀ k, storeGet (uploadHandler embed st pdfId raw).1 k = storeGet st k := by
  have heq := uploadHandler_error embed st pdfId raw u h
  exact ⟨heq, fun k => by rw [heq]⟩

/-- Witness for C4: a concrete failing embedding service. -/
theorem c4_upload_failure_atomic_witness :
    uploadHandler (fun _ => .error ()) [] "doc" ["x".data] = ([], false) ∧
    ∀ k, storeGet (uploadHandler (fun _ => .error ()) [] "doc" ["x".data]).1 k =
      storeGet [] k :=
  c4_upload_failure_atomic (fun _ => .error ()) [] "doc" ["x".data] () rfl

/-- C5: an ask against a document id absent from the store answers 404
(`notFound`) before any provider call: the result does not depend on the
embedding service or the generation service at all. -/
theorem c5_not_found_short_circuit (st : Store) (pdfId : String)
    (question : List Char) (h : storeGet st pdfId = none)
    (embed embed' : EmbedFn) (gen gen' : Except Unit (List (List Char))) :
    askHandler embed gen st pdfId question = .notFound ∧
    askHandler embed gen st pdfId question = askHandler embed' gen' st pdfId question := by
  constructor <;> simp [askHandler, h]

/-- Witness for C5 on the empty store. -/
theorem c5_not_found_short_circuit_witness :
    askHandler (fun _ => .ok (some [])) (.ok []) [] "missing" "Q".data = .notFound ∧
    askHandler (fun _ => .ok (some [])) (.ok []) [] "missing" "Q".data =
      askHandler (fun _ => .error ()) (.error ()) [] "missing" "Q".data :=
  c5_not_found_short_circuit [] "missing" "Q".data rfl
    (fun _ => .ok (some [])) (fun _ => .error ()) (.ok []) (.error ())

/-- C6 (counterexample): ranking output is **not** always descending in score.
With stored embeddings `[0,1]`, `[0,0]`, `[1,0]` and query `[1,0]` the scores
are `0`, `NaN`, `1`; every comparator call involving the `NaN` yields `NaN`,
which `SortCompare` treats as equal, so the stable sort leaves the order
unchanged and the finite scores `0` and `1` appear in ascending order — not
descending under IEEE `≥` (nor under any reading that only excuses the
`NaN`). -/
theorem c6_counterexample :
    (rank [1, 0] [⟨"a".data, [0, 1], 1⟩, ⟨"b".data, [0, 0], 2⟩, ⟨"c".data, [1, 0], 3⟩]).map
        (fun r => r.score) = [.fin 0, .nan, .fin 1] ∧
    ¬ List.Chain' (fun a b => JsNum.jsGe a.score b.score)
      (rank [1, 0] [⟨"a".data, [0, 1], 1⟩, ⟨"b".data, [0, 0], 2⟩, ⟨"c".data, [1, 0], 3⟩]) := by
  constructor
  · simp [rank, sortedChunks, scoreChunks, cosineSimilarity_e1_e2, cosineSimilarity_e1_zero,
      cosineSimilarity_e1_e1, isort, insertSorted, rankCmp, jsSortResult_nan]
  · simp [rank, sortedChunks, scoreChunks, cosineSimilarity_e1_e2, cosineSimilarity_e1_zero,
      cosineSimilarity_e1_e1, isort, insertSorted, rankCmp, jsSortResult_nan, JsNum.jsGe]

/-- C6 (amended): ranking always returns exactly `min 3 N` results (so all `N`
when `3 > N`, and the empty sequence — not an error — on an empty index), and
**provided every computed score is finite** (no `NaN` from degenerate or
length-mismatched embeddings) the output is sorted descending by score. -/
theorem c6_rank_length_and_sorted (q : Vec) (es : List EmbeddingEntry) :
    (rank q es).length = min 3 es.length ∧
    rank q [] = [] ∧
    ((∀ r ∈ scoreChunks q es, ∃ x, r.score = JsNum.fin x) →
      List.Chain' (fun a b => JsNum.jsGe a.score b.score) (rank q es)) := by
  refine ⟨?_, rfl, fun hfin => ?_⟩
  · rw [rank, List.length_take, sortedChunks, isort_length, scoreChunks_length]
  · exact List.Chain'.take (sortedChunks_descending hfin) 3

/-- Witness for C6 (amended): two finite-scored chunks, sorted descending. -/
theorem c6_rank_length_and_sorted_witness :
    List.Chain' (fun a b => JsNum.jsGe a.score b.score)
      (rank [1, 0] [⟨"a".data, [1, 0], 1⟩, ⟨"b".data, [0, 1], 2⟩]) :=
  (c6_rank_length_and_sorted [1, 0] [⟨"a".data, [1, 0], 1⟩, ⟨"b".data, [0, 1], 2⟩]).2.2
    (by
      simp only [scoreChunks, List.map_cons, List.map_nil, List.mem_cons,
        List.not_mem_nil, or_false, cosineSimilarity_e1_e1, cosineSimilarity_e1_e2]
      rintro r (rfl | rfl)
      · exact ⟨1, rfl⟩
      · exact ⟨0, rfl⟩)

/-- C7: the sort of line 189 is a deterministic stable sort: it is the
projection of its index-tagged rerun, and whenever two chunks at positions
`i < j` have exactly equal scores (the comparator result is then `+0`, also
when both scores are `NaN`), the sorted output keeps chunk `i` before chunk
`j` — original insertion order. -/
theorem c7_ranking_stable (q : Vec) (es : List EmbeddingEntry) (i j : Nat)
    (hi : i < (scoreChunks q es).length) (hj : j < (scoreChunks q es).length)
    (hij : i < j)
    (hs : ((scoreChunks q es)[i]).score = ((scoreChunks q es)[j]).score) :
    sortedChunks q es = (sortedChunksIdx q es).map Prod.snd ∧
    [(i, (scoreChunks q es)[i]), (j, (scoreChunks q es)[j])] <+ sortedChunksIdx q es := by
  refine ⟨sortedChunks_eq_map_idx q es, ?_⟩
  have hi' : i < (scoreChunks q es).enum.length := by
    rw [List.enum_length]; exact hi
  have hj' : j < (scoreChunks q es).enum.length := by
    rw [List.enum_length]; exact hj
  have hpair := pair_getElem_sublist ((scoreChunks q es).enum) hi' hj' hij
  rw [List.getElem_enum, List.getElem_enum] at hpair
  exact isort_stable _ hpair (by simp [rankCmp_eq_of_score_eq hs])

/-- Witness for C7: two chunks with identical embeddings (hence exactly equal
scores) stay in insertion order. -/
theorem c7_ranking_stable_witness :
    sortedChunks [1, 0] [⟨"a".data, [1, 0], 1⟩, ⟨"b".data, [1, 0], 2⟩] =
      (sortedChunksIdx [1, 0] [⟨"a".data, [1, 0], 1⟩, ⟨"b".data, [1, 0], 2⟩]).map Prod.snd ∧
    [(0, (scoreChunks [1, 0] [⟨"a".data, [1, 0], 1⟩, ⟨"b".data, [1, 0], 2⟩])[0]),
     (1, (scoreChunks [1, 0] [⟨"a".data, [1, 0], 1⟩, ⟨"b".data, [1, 0], 2⟩])[1])] <+
      sortedChunksIdx [1, 0] [⟨"a".data, [1, 0], 1⟩, ⟨"b".data, [1, 0], 2⟩] :=
  c7_ranking_stable [1, 0] [⟨"a".data, [1, 0], 1⟩, ⟨"b".data, [1, 0], 2⟩] 0 1
    (by simp [scoreChunks]) (by simp [scoreChunks]) (by norm_num) rfl

/-- C8: empty normalized pages are dropped before anything else happens: no
text sent to the embedding service is empty, and no chunk record stored by a
successful upload has empty text. -/
theorem c8_no_empty_chunks (embed : EmbedFn) (raw : List (List Char)) :
    (∀ t ∈ (uploadLoop embed (extractTextByPage raw)).2, t ≠ []) ∧
    (∀ es, (uploadLoop embed (extractTextByPage raw)).1 = .ok es →
      ∀ e ∈ es, e.text ≠ []) :=
  uploadLoop_nonempty embed (extractTextByPage raw)

/-- Witness for C8: upload of `["a", " "]` embeds and stores only the
non-empty page `"a"`. -/
theorem c8_no_empty_chunks_witness :
    "a".data ≠ ([] : List Char) ∧ "a".data ≠ ([] : List Char) :=
  ⟨(c8_no_empty_chunks (fun _ => .ok (some [])) ["a".data, " ".data]).1 "a".data
      (by decide),
   (c8_no_empty_chunks (fun _ => .ok (some [])) ["a".data, " ".data]).2
      [⟨"a".data, [], 1⟩] rfl ⟨"a".data, [], 1⟩ (List.mem_singleton.mpr rfl)⟩

/-- C9: a document whose extracted pages are
`["Intro text here.", "", "Conclusion text."]` segments to exactly two chunk
records with page numbers `1` and `3`: page numbers are assigned 1-based
before empty pages are dropped, so the dropped page `2` leaves a gap. -/
theorem c9_page_numbers_with_gap (embed : EmbedFn) (v1 v2 : Option Vec)
    (h1 : embed "Intro text here.".data = .ok v1)
    (h2 : embed "Conclusion text.".data = .ok v2) :
    (((uploadLoop embed
        (extractTextByPage
          ["Intro text here.".data, "".data, "Conclusion text.".data])).1).map
      (fun es => es.map (fun e => (e.text, e.pageNumber)))).toOption =
    some [("Intro text here.".data, 1), ("Conclusion text.".data, 3)] := by
  have hext : extractTextByPage
      ["Intro text here.".data, "".data, "Conclusion text.".data] =
      [(1, "Intro text here.".data), (2, ([] : List Char)),
       (3, "Conclusion text.".data)] := by decide
  have e1 : normalizeWs "Intro text here.".data = "Intro text here.".data := by decide
  have e2 : normalizeWs ([] : List Char) = [] := by decide
  have e3 : normalizeWs "Conclusion text.".data = "Conclusion text.".data := by decide
  have c1 : ("Intro text here.".data = ([] : List Char)) = False :=
    eq_false (by decide)
  have c3 : ("Conclusion text.".data = ([] : List Char)) = False :=
    eq_false (by decide)
  rw [hext]
  simp only [uploadLoop, e1, e2, e3, c1, c3, if_false, if_true, eq_self_iff_true, h1, h2]
  cases v1 <;> cases v2 <;> simp [Except.map, Except.toOption]

/-- Witness for C9 with a concrete embedding service. -/
theorem c9_page_numbers_with_gap_witness :
    (((uploadLoop (fun _ => .ok (some []))
        (extractTextByPage
          ["Intro text here.".data, "".data, "Conclusion text.".data])).1).map
      (fun es => es.map (fun e => (e.text, e.pageNumber)))).toOption =
    some [("Intro text here.".data, 1), ("Conclusion text.".data, 3)] :=
  c9_page_numbers_with_gap (fun _ => .ok (some [])) (some []) (some []) rfl rfl

/-- C10: a successful embedding response without a payload does not fail the
pipeline: the upload stores that chunk with the empty embedding `[]` (so
stored embedding lengths need not be constant across an index — here `2` and
`0`), an ask request falls back to the empty query vector, and a record with
embedding `[]` scores `NaN` against **every** query vector. -/
theorem c10_empty_embedding_fallbacks (q : Vec) :
    cosineSimilarity q [] = .nan ∧
    askQueryVec none = [] ∧
    (((uploadLoop (fun t => .ok (if t = "A.".data then some [1, 0] else none))
        (extractTextByPage ["A.".data, "B.".data])).1).map
      (fun es => es.map (fun e => e.embedding.length))).toOption = some [2, 0] := by
  refine ⟨cosineSimilarity_nil_right q, rfl, by decide⟩
